import Mathlib

/-!
Shallow embedding of the retry/backoff, element-polling, storage and display
components of the aws-account-name browser extension, together with proofs of
the behavioural properties stated in its specification.

JavaScript numbers are modelled as rationals (ℚ), JavaScript runtime values by
the inductive `Value`, and a probe function by the outcome (`ret`/`thrown`) of
each of its successive invocations.
-/

namespace AwsAccountName

/-- A JavaScript runtime value, as far as the retry executor inspects one:
only its truthiness and identity matter.  Objects are represented by an
opaque numeric identity. -/
inductive Value where
  | null
  | undefined
  | bool (b : Bool)
  | num (q : ℚ)
  | str (s : String)
  | obj (id : ℕ)
deriving DecidableEq, Repr

/-- JavaScript truthiness: `null`, `undefined`, `false`, `0` and `""` are
falsy, everything else (in our value model) is truthy. -/
def truthy : Value → Bool
  | .null => false
  | .undefined => false
  | .bool b => b
  | .num q => q != 0
  | .str s => s != ""
  | .obj _ => true

/-- The value found at a property of a configuration object: either a
JavaScript number (modelled as ℚ) or anything that is not a number
(a missing property, a string, an object, ...), which `validateConfig`
rejects uniformly through its `typeof x !== 'number'` checks. -/
inductive JSField where
  | num (q : ℚ)
  | notNum
deriving DecidableEq, Repr

/-- The four numeric properties read by `validateConfig` plus the
`backoffType` string read by `calculateDelay` (any non-string value of
`backoffType` behaves like a string different from `"exponential"`). -/
structure RawConfig where
  maxAttempts : JSField
  initialDelay : JSField
  maxDelay : JSField
  backoffMultiplier : JSField
  backoffType : String
deriving DecidableEq, Repr

/-- The argument passed to `validateConfig`/`retryWithBackoff`: either not an
object (this also covers `null` and `undefined`, rejected by the code's
`!config || typeof config !== 'object'` test) or an object with properties. -/
inductive ConfigValue where
  | nonObject
  | obj (c : RawConfig)
deriving DecidableEq, Repr

/-- `validateConfig` (retry-utils, lines 33-61): sequence of early
`return false` checks, mirroring the source. -/
def validateConfig : ConfigValue → Bool
  | .nonObject => false
  | .obj c =>
    match c.maxAttempts with
    | .notNum => false
    | .num maxAttempts =>
      if maxAttempts ≤ 0 then false
      else match c.initialDelay with
      | .notNum => false
      | .num initialDelay =>
        if initialDelay < 0 then false
        else match c.maxDelay with
        | .notNum => false
        | .num maxDelay =>
          if maxDelay < 0 then false
          else match c.backoffMultiplier with
          | .notNum => false
          | .num backoffMultiplier =>
            if backoffMultiplier ≤ 0 then false
            else if maxDelay < initialDelay then false
            else true

/-- A configuration whose numeric fields have passed validation (the view of
the config object used by `calculateDelay` and the retry loop). -/
structure RetryConfig where
  maxAttempts : ℚ
  initialDelay : ℚ
  maxDelay : ℚ
  backoffMultiplier : ℚ
  backoffType : String
deriving DecidableEq, Repr

/-- Numeric value of a field (only used on fields that validation has
confirmed to be numbers). -/
def JSField.numVal : JSField → ℚ
  | .num q => q
  | .notNum => 0

/-- View a raw config object through its numeric fields. -/
def toRetryConfig (c : RawConfig) : RetryConfig :=
  ⟨c.maxAttempts.numVal, c.initialDelay.numVal, c.maxDelay.numVal,
   c.backoffMultiplier.numVal, c.backoffType⟩

/-- `RETRY_CONFIG.portal` (retry-utils, lines 8-14). -/
def RETRY_CONFIG_portal : RetryConfig := ⟨5, 200, 2000, 2, "exponential"⟩

/-- `RETRY_CONFIG.console` (retry-utils, lines 15-21). -/
def RETRY_CONFIG_console : RetryConfig := ⟨5, 500, 2500, 500, "linear"⟩

/-- The portal preset written as a literal config object. -/
def portalConfigValue : ConfigValue :=
  .obj ⟨.num 5, .num 200, .num 2000, .num 2, "exponential"⟩

/-- `calculateDelay` (retry-utils, lines 69-82): exponential when
`backoffType === 'exponential'`, otherwise linear; capped by `maxDelay`. -/
def calculateDelay (attemptNumber : ℕ) (config : RetryConfig) : ℚ :=
  let delay : ℚ :=
    if config.backoffType = "exponential" then
      config.initialDelay * config.backoffMultiplier ^ attemptNumber
    else
      config.initialDelay + config.backoffMultiplier * attemptNumber
  min delay config.maxDelay

/-- Outcome of one invocation of a probe function: it either returns a value
or raises. -/
inductive Outcome where
  | ret (v : Value)
  | thrown
deriving DecidableEq, Repr

/-- The structured log lines emitted by `retryWithBackoff` via
`console.log/warn/error`. -/
inductive LogEntry where
  | invalidConfigWarn
  | attemptStart (n total : ℕ)
  | success (n : ℕ)
  | retryAfterFail (n : ℕ) (delay : ℚ)
  | errorOn (n : ℕ)
  | retryAfterError (delay : ℚ)
  | exhausted (total : ℕ)
deriving DecidableEq, Repr

/-- Result of one `retryWithBackoff` run: the returned value, the number of
probe invocations that took place, and the log lines in order. -/
structure RunResult where
  result : Value
  calls : ℕ
  logs : List LogEntry
deriving DecidableEq, Repr

/-- The number of iterations of the JS loop `for (attempt = 0; attempt <
maxAttempts; attempt++)`: since `attempt` ranges over naturals,
`attempt < maxAttempts` holds exactly for `attempt < ⌈maxAttempts⌉₊`. -/
def numAttempts (config : RetryConfig) : ℕ := ⌈config.maxAttempts⌉₊

/-- The loop body of `retryWithBackoff` (retry-utils, lines 100-129).
`fn i` is the outcome of the probe's `i`-th invocation; `total` is
`numAttempts config`, so the guard `attempt + 1 < total` is exactly the
source's `attempt < maxAttempts - 1`; `fuel = total - attempt` drives the
recursion.  A `thrown` outcome is caught (the source's `catch` block) and,
unlike a falsy return, does not update `lastResult`. -/
def retryGo (fn : ℕ → Outcome) (config : RetryConfig) (total : ℕ) :
    ℕ → ℕ → Value → RunResult
  | 0, _, last => ⟨last, 0, [.exhausted total]⟩
  | fuel+1, attempt, last =>
    match fn attempt with
    | .ret v =>
      if truthy v then
        ⟨v, 1, [.attemptStart (attempt+1) total, .success (attempt+1)]⟩
      else if attempt + 1 < total then
        let d := calculateDelay attempt config
        let r := retryGo fn config total fuel (attempt+1) v
        ⟨r.result, r.calls + 1,
          .attemptStart (attempt+1) total :: .retryAfterFail (attempt+1) d :: r.logs⟩
      else
        let r := retryGo fn config total fuel (attempt+1) v
        ⟨r.result, r.calls + 1, .attemptStart (attempt+1) total :: r.logs⟩
    | .thrown =>
      if attempt + 1 < total then
        let d := calculateDelay attempt config
        let r := retryGo fn config total fuel (attempt+1) last
        ⟨r.result, r.calls + 1,
          .attemptStart (attempt+1) total :: .errorOn (attempt+1) :: .retryAfterError d :: r.logs⟩
      else
        let r := retryGo fn config total fuel (attempt+1) last
        ⟨r.result, r.calls + 1, .attemptStart (attempt+1) total :: .errorOn (attempt+1) :: r.logs⟩

/-- The config actually used by the retry loop (retry-utils, lines 92-95):
the supplied one when valid, otherwise `RETRY_CONFIG.portal`. -/
def effectiveConfig (cv : ConfigValue) : RetryConfig :=
  match cv with
  | .obj c => if validateConfig (.obj c) then toRetryConfig c else RETRY_CONFIG_portal
  | .nonObject => RETRY_CONFIG_portal

/-- `retryWithBackoff` (retry-utils, lines 90-133): substitute the portal
default (with a warning) on an invalid config, then run the attempt loop
starting from `attempt = 0` and `lastResult = null`. -/
def retryWithBackoff (fn : ℕ → Outcome) (cv : ConfigValue) : RunResult :=
  let warnLogs : List LogEntry :=
    if validateConfig cv then [] else [.invalidConfigWarn]
  let config := effectiveConfig cv
  let total := numAttempts config
  let r := retryGo fn config total total 0 .null
  ⟨r.result, r.calls, warnLogs ++ r.logs⟩

/-- Modelled from the spec (§4.3 return value): the last falsy value
*returned* by the probe over a window of attempts, keeping the running value
unchanged on a raised attempt, starting from `null`.  Used to state what the
executor returns on exhaustion. -/
def lastReturnedValue (fn : ℕ → Outcome) : ℕ → ℕ → Value → Value
  | 0, _, last => last
  | fuel+1, attempt, last =>
    match fn attempt with
    | .ret v => lastReturnedValue fn fuel (attempt+1) v
    | .thrown => lastReturnedValue fn fuel (attempt+1) last

/-! ### Element poller (`waitForElement`, retry-utils lines 160-186) -/

/-- Outcome of one `document.querySelector` call in a poll: an element
(opaque identity), no element (`null`), or a raised exception (an invalid
selector makes `querySelector` throw). -/
inductive QueryOutcome where
  | found (e : ℕ)
  | notFound
  | raises
deriving DecidableEq, Repr

/-- What a `waitForElement` call delivers to its caller: the element, the
`null` timeout result, or an escaped exception (the source has no
`try`/`catch` around the query, so a throw propagates). -/
inductive PollResult where
  | elem (e : ℕ)
  | nullResult
  | exn
deriving DecidableEq, Repr

/-- `RETRY_CONFIG.elementPolling.pollInterval` (retry-utils, line 23). -/
def elementPollInterval : ℕ := 100

/-- `RETRY_CONFIG.elementPolling.timeout` (retry-utils, line 24), the default
`timeout` argument of `waitForElement`. -/
def elementPollingTimeout : ℕ := 3000

/-- The `check` closure of `waitForElement`: `query n` is the outcome of the
`n`-th `querySelector` call; under idealised scheduling the `n`-th check runs
at elapsed time `n * pollInterval`, so the source's `elapsed >= timeout` test
is `timeout ≤ n * elementPollInterval`.  The query is evaluated first (a
throw escapes before anything else), then the element test, then the timeout
test.  `fuel` only drives the recursion; `waitForElement` supplies enough of
it that the `0` case is never reached. -/
def waitForElementGo (query : ℕ → QueryOutcome) (timeout : ℕ) :
    ℕ → ℕ → PollResult
  | 0, _ => .nullResult
  | fuel+1, n =>
    match query n with
    | .raises => .exn
    | .found e => .elem e
    | .notFound =>
      if timeout ≤ n * elementPollInterval then .nullResult
      else waitForElementGo query timeout fuel (n+1)

/-- `waitForElement` (retry-utils, lines 160-186): poll every 100 ms starting
immediately, until the element is found or the elapsed time reaches
`timeout`. -/
def waitForElement (query : ℕ → QueryOutcome) (timeout : ℕ) : PollResult :=
  waitForElementGo query timeout (timeout / elementPollInterval + 2) 0

/-! ### Validation helpers (`src/validation.js`) -/

/-- JavaScript `str.substring(0, n)`: the first `n` characters. -/
def jsSubstring (s : String) (n : ℕ) : String := (s.data.take n).asString

/-- Whitespace for the purposes of JS `String.prototype.trim` (space, tab,
newline, carriage return, vertical tab, form feed). -/
def isJsWhitespace (c : Char) : Bool :=
  c = ' ' || c = '\t' || c = '\n' || c = '\r' || c = '\x0b' || c = '\x0c'

/-- JavaScript `str.trim()`: strip whitespace from both ends. -/
def jsTrim (s : String) : String :=
  (((s.data.dropWhile isJsWhitespace).reverse.dropWhile isJsWhitespace).reverse).asString

/-- `isValidAccountId` (validation.js, lines 10-12): a string of exactly 12
ASCII digits (the regex `^\d{12}$`).  Non-string arguments are rejected by
the source's `typeof` check and are outside this model. -/
def isValidAccountId (id : String) : Bool :=
  id.data.length = 12 && id.data.all Char.isDigit

/-- `isValidAccountName` (validation.js, lines 19-21): non-empty after
trimming and at most 256 characters long. -/
def isValidAccountName (name : String) : Bool :=
  decide (0 < (jsTrim name).data.length) && decide (name.data.length ≤ 256)

/-- `sanitizeAccountName` (validation.js, lines 28-33): trim, then cap at 256
characters. -/
def sanitizeAccountName (name : String) : String :=
  jsSubstring (jsTrim name) 256

/-! ### Storage service (`storeAccounts` / `getAccountName`) -/

/-- A stored mapping record (the value placed in the `validAccounts`
object). -/
structure StoredAccount where
  accountId : String
  accountName : String
  lastUpdated : ℕ
deriving DecidableEq, Repr

/-- One element of the list passed to `storeAccounts`. -/
structure AccountRecord where
  accountId : String
  accountName : String
deriving DecidableEq, Repr

/-- JavaScript object property assignment `m[k] = v`: replace the value at an
existing key, otherwise append the new key (objects built this way have
distinct keys in insertion order). -/
def objSet : List (String × StoredAccount) → String → StoredAccount →
    List (String × StoredAccount)
  | [], k, v => [(k, v)]
  | (k₁, v₁) :: rest, k, v =>
    if k₁ = k then (k, v) :: rest else (k₁, v₁) :: objSet rest k v

/-- JavaScript object property read `m[k]`. -/
def objGet (m : List (String × StoredAccount)) (k : String) : Option StoredAccount :=
  (m.find? (fun p => p.1 = k)).map Prod.snd

/-- Whether a record passes both checks of the `storeAccounts` filter. -/
def isValidRecord (a : AccountRecord) : Bool :=
  isValidAccountId a.accountId && isValidAccountName a.accountName

/-- One iteration of the `storeAccounts` loop (storage, lines 17-25): a
record passing both checks is written under its id, any other record is
skipped.  `now` is `Date.now()`. -/
def storeStep (now : ℕ) (m : List (String × StoredAccount)) (a : AccountRecord) :
    List (String × StoredAccount) :=
  if isValidRecord a then
    objSet m a.accountId ⟨a.accountId, sanitizeAccountName a.accountName, now⟩
  else m

/-- The `validAccounts` object built by the loop of `storeAccounts`
(storage, lines 15-25): each valid record is written under its id (a later
record with the same id overwrites an earlier one), invalid records are
skipped. -/
def buildValidAccounts (accounts : List AccountRecord) (now : ℕ) :
    List (String × StoredAccount) :=
  accounts.foldl (storeStep now) []

/-- The extension's slice of `chrome.storage.local`: the `accounts` key is
absent until the first store (reads coalesce it with `|| {}`). -/
structure StorageState where
  accounts : Option (List (String × StoredAccount))
  version : Option ℕ
deriving DecidableEq, Repr

/-- Storage before any write. -/
def emptyStorage : StorageState := ⟨none, none⟩

/-- Response shape of `storeAccounts`. -/
structure StoreResponse where
  success : Bool
deriving DecidableEq, Repr

/-- `storeAccounts` (storage, lines 13-32): build `validAccounts` from the
batch and write it as the whole `accounts` key (`chrome.storage.local.set`
replaces the key, so this is a full replacement of all mappings). -/
def storeAccounts (accounts : List AccountRecord) (now : ℕ) (st : StorageState) :
    StoreResponse × StorageState :=
  (⟨true⟩, { st with accounts := some (buildValidAccounts accounts now), version := some 1 })

/-- Response shape of `getAccountName`. -/
structure GetNameResponse where
  success : Bool
  accountName : Option String
deriving DecidableEq, Repr

/-- `getAccountName` (storage, lines 39-56): reject ill-formed ids, then look
the id up in the stored `accounts` object (defaulting to the empty object),
returning the mapped name or `null`. -/
def getAccountName (accountId : String) (st : StorageState) : GetNameResponse :=
  if !isValidAccountId accountId then ⟨false, none⟩
  else
    let accounts := st.accounts.getD []
    match objGet accounts accountId with
    | some account => ⟨true, some account.accountName⟩
    | none => ⟨true, none⟩

/-! ### Console display (`truncateText` / `createDisplayElement`) -/

/-- `CONFIG.maxNameLength` (console-content, line 21). -/
def CONFIG_maxNameLength : ℕ := 30

/-- `truncateText` (console-content, lines 249-254): a falsy (empty) string
or one within the limit is returned unchanged, otherwise the first
`maxLength - 3` characters plus `"..."`. -/
def truncateText (text : String) (maxLength : ℕ := CONFIG_maxNameLength) : String :=
  if text = "" || text.data.length ≤ maxLength then text
  else jsSubstring text (maxLength - 3) ++ "..."

/-- The two text outputs of `createDisplayElement` (the DOM element carries
exactly these strings). -/
structure DisplayElement where
  displayText : String
  tooltipText : String
deriving DecidableEq, Repr

/-- `createDisplayElement` (console-content, lines 262-275): truncated
display text and a tooltip holding the full name and id. -/
def createDisplayElement (accountName accountId : String) : DisplayElement :=
  ⟨truncateText accountName, accountName ++ " (" ++ accountId ++ ")"⟩

/-! ### Lemmas about the retry loop -/

/-- An attempt outcome that the executor does not treat as success: a falsy
return or a raised error. -/
def notSuccess (o : Outcome) : Prop :=
  match o with
  | .ret v => truthy v = false
  | .thrown => True

theorem retryGo_calls_of_no_success (fn : ℕ → Outcome) (config : RetryConfig)
    (total : ℕ) :
    ∀ fuel attempt last, (∀ i, i < fuel → notSuccess (fn (attempt + i))) →
      (retryGo fn config total fuel attempt last).calls = fuel := by
  intro fuel
  induction fuel with
  | zero => intro attempt last _; rfl
  | succ fuel ih =>
    intro attempt last h
    have h0 : notSuccess (fn attempt) := by simpa using h 0 (Nat.succ_pos fuel)
    have htail : ∀ i, i < fuel → notSuccess (fn (attempt + 1 + i)) := by
      intro i hi
      have := h (i + 1) (by omega)
      have heq : attempt + (i + 1) = attempt + 1 + i := by omega
      rwa [heq] at this
    cases hfn : fn attempt with
    | ret v =>
      rw [hfn] at h0
      have h0' : truthy v = false := h0
      simp only [retryGo, hfn, h0', Bool.false_eq_true, if_false]
      split <;> simp [ih (attempt + 1) v htail]
    | thrown =>
      simp only [retryGo, hfn]
      split <;> simp [ih (attempt + 1) last htail]

theorem retryGo_of_first_success (fn : ℕ → Outcome) (config : RetryConfig)
    (total : ℕ) :
    ∀ fuel attempt last j v, j < fuel →
      fn (attempt + j) = .ret v → truthy v = true →
      (∀ i, i < j → notSuccess (fn (attempt + i))) →
      (retryGo fn config total fuel attempt last).result = v ∧
      (retryGo fn config total fuel attempt last).calls = j + 1 := by
  intro fuel
  induction fuel with
  | zero => intro attempt last j v hj; omega
  | succ fuel ih =>
    intro attempt last j v hj hfnj htr hprev
    cases j with
    | zero =>
      rw [Nat.add_zero] at hfnj
      simp [retryGo, hfnj, htr]
    | succ j =>
      have h0 : notSuccess (fn attempt) := by simpa using hprev 0 (Nat.succ_pos j)
      have hfnj' : fn (attempt + 1 + j) = .ret v := by
        have heq : attempt + (j + 1) = attempt + 1 + j := by omega
        rwa [heq] at hfnj
      have hprev' : ∀ i, i < j → notSuccess (fn (attempt + 1 + i)) := by
        intro i hi
        have := hprev (i + 1) (by omega)
        have heq : attempt + (i + 1) = attempt + 1 + i := by omega
        rwa [heq] at this
      cases hfn : fn attempt with
      | ret w =>
        rw [hfn] at h0
        have h0' : truthy w = false := h0
        have hrec := ih (attempt + 1) w j v (by omega) hfnj' htr hprev'
        simp only [retryGo, hfn, h0', Bool.false_eq_true, if_false]
        split <;> simp [hrec.1, hrec.2]
      | thrown =>
        have hrec := ih (attempt + 1) last j v (by omega) hfnj' htr hprev'
        simp only [retryGo, hfn]
        split <;> simp [hrec.1, hrec.2]

theorem retryGo_result_of_no_success (fn : ℕ → Outcome) (config : RetryConfig)
    (total : ℕ) :
    ∀ fuel attempt last, (∀ i, i < fuel → notSuccess (fn (attempt + i))) →
      (retryGo fn config total fuel attempt last).result =
        lastReturnedValue fn fuel attempt last := by
  intro fuel
  induction fuel with
  | zero => intro attempt last _; rfl
  | succ fuel ih =>
    intro attempt last h
    have h0 : notSuccess (fn attempt) := by simpa using h 0 (Nat.succ_pos fuel)
    have htail : ∀ i, i < fuel → notSuccess (fn (attempt + 1 + i)) := by
      intro i hi
      have := h (i + 1) (by omega)
      have heq : attempt + (i + 1) = attempt + 1 + i := by omega
      rwa [heq] at this
    cases hfn : fn attempt with
    | ret v =>
      rw [hfn] at h0
      have h0' : truthy v = false := h0
      simp only [retryGo, hfn, h0', Bool.false_eq_true, if_false,
        lastReturnedValue]
      split <;> simp [ih (attempt + 1) v htail]
    | thrown =>
      simp only [retryGo, hfn, lastReturnedValue]
      split <;> simp [ih (attempt + 1) last htail]

theorem lastReturnedValue_final (fn : ℕ → Outcome) :
    ∀ fuel attempt last v, 0 < fuel → fn (attempt + fuel - 1) = .ret v →
      lastReturnedValue fn fuel attempt last = v := by
  intro fuel
  induction fuel with
  | zero => intro attempt last v h; omega
  | succ fuel ih =>
    intro attempt last v _ hfn
    cases hf : fuel with
    | zero =>
      subst hf
      have : fn attempt = .ret v := by simpa using hfn
      simp [lastReturnedValue, this]
    | succ fuel' =>
      subst hf
      have hfn' : fn (attempt + 1 + (fuel' + 1) - 1) = .ret v := by
        have heq : attempt + 1 + (fuel' + 1) - 1 = attempt + (fuel' + 1 + 1) - 1 := by
          omega
        rwa [heq]
      cases hfa : fn attempt with
      | ret w =>
        simp only [lastReturnedValue, hfa]
        exact ih (attempt + 1) w v (Nat.succ_pos _) hfn'
      | thrown =>
        simp only [lastReturnedValue, hfa]
        exact ih (attempt + 1) last v (Nat.succ_pos _) hfn'

/-- For a valid config object the executor keeps the supplied config and adds
no warning; its run is the plain loop from attempt 0. -/
theorem retryWithBackoff_valid (fn : ℕ → Outcome) (c : RawConfig)
    (hvalid : validateConfig (.obj c) = true) :
    retryWithBackoff fn (.obj c) =
      retryGo fn (toRetryConfig c) (numAttempts (toRetryConfig c))
        (numAttempts (toRetryConfig c)) 0 .null := by
  simp [retryWithBackoff, effectiveConfig, hvalid]

/-- A valid config object whose `maxAttempts` is the natural number `m` runs
its loop over exactly `m` attempt slots. -/
theorem numAttempts_of_natCast (c : RawConfig) (m : ℕ)
    (hm : c.maxAttempts = .num (m : ℚ)) :
    numAttempts (toRetryConfig c) = m := by
  simp [numAttempts, toRetryConfig, hm, JSField.numVal]

theorem validateConfig_num_iff (maq idlq mdlq bmq : ℚ) (bt : String) :
    validateConfig (.obj ⟨.num maq, .num idlq, .num mdlq, .num bmq, bt⟩) = true ↔
      0 < maq ∧ 0 ≤ idlq ∧ 0 ≤ mdlq ∧ 0 < bmq ∧ idlq ≤ mdlq := by
  simp only [validateConfig]
  split_ifs with h1 h2 h3 h4 h5
  · simp only [Bool.false_eq_true, false_iff]
    rintro ⟨h, -⟩; linarith
  · simp only [Bool.false_eq_true, false_iff]
    rintro ⟨-, h, -⟩; linarith
  · simp only [Bool.false_eq_true, false_iff]
    rintro ⟨-, -, h, -⟩; linarith
  · simp only [Bool.false_eq_true, false_iff]
    rintro ⟨-, -, -, h, -⟩; linarith
  · simp only [Bool.false_eq_true, false_iff]
    rintro ⟨-, -, -, -, h⟩; linarith
  · simp only [true_iff]
    exact ⟨not_le.mp h1, not_lt.mp h2, not_lt.mp h3, not_le.mp h4, not_lt.mp h5⟩

/-! ### Claim theorems -/

/-- C2.  Backoff delay laws: for every config and every attempt index,
`calculateDelay` is `min(initialDelay * multiplier ^ i, maxDelay)` under
exponential backoff and `min(initialDelay + multiplier * i, maxDelay)` under
linear backoff; it is a pure total function of these inputs. -/
theorem calculateDelay_backoff_laws (config : RetryConfig) (i : ℕ) :
    (config.backoffType = "exponential" →
      calculateDelay i config =
        min (config.initialDelay * config.backoffMultiplier ^ i) config.maxDelay) ∧
    (config.backoffType = "linear" →
      calculateDelay i config =
        min (config.initialDelay + config.backoffMultiplier * (i : ℚ)) config.maxDelay) := by
  constructor
  · intro h
    simp [calculateDelay, h]
  · intro h
    simp only [calculateDelay, h]
    rw [if_neg (by decide)]

theorem calculateDelay_backoff_laws_witness :
    calculateDelay 2 RETRY_CONFIG_portal = 800 ∧
    calculateDelay 2 RETRY_CONFIG_console = 1500 := by
  constructor
  · rw [(calculateDelay_backoff_laws RETRY_CONFIG_portal 2).1 rfl]
    norm_num [RETRY_CONFIG_portal]
  · rw [(calculateDelay_backoff_laws RETRY_CONFIG_console 2).2 rfl]
    norm_num [RETRY_CONFIG_console]

/-- C3.  Config validity law: `validateConfig` returns true exactly when the
input is an object whose `maxAttempts`, `initialDelay`, `maxDelay` and
`backoffMultiplier` are numbers with `maxAttempts > 0`, `initialDelay ≥ 0`,
`maxDelay ≥ 0`, `backoffMultiplier > 0` and `maxDelay ≥ initialDelay`. -/
theorem validateConfig_iff (cv : ConfigValue) :
    validateConfig cv = true ↔
      ∃ c : RawConfig, cv = .obj c ∧
        ∃ ma idl mdl bm : ℚ,
          c.maxAttempts = .num ma ∧ c.initialDelay = .num idl ∧
          c.maxDelay = .num mdl ∧ c.backoffMultiplier = .num bm ∧
          0 < ma ∧ 0 ≤ idl ∧ 0 ≤ mdl ∧ 0 < bm ∧ idl ≤ mdl := by
  cases cv with
  | nonObject => simp [validateConfig]
  | obj c =>
    obtain ⟨ma, idl, mdl, bm, bt⟩ := c
    cases ma with
    | notNum => simp [validateConfig]
    | num maq =>
    cases idl with
    | notNum =>
      simp [validateConfig]
    | num idlq =>
    cases mdl with
    | notNum =>
      simp [validateConfig]
    | num mdlq =>
    cases bm with
    | notNum =>
      simp [validateConfig]
    | num bmq =>
    rw [validateConfig_num_iff]
    constructor
    · rintro ⟨h1, h2, h3, h4, h5⟩
      exact ⟨⟨.num maq, .num idlq, .num mdlq, .num bmq, bt⟩, rfl,
        maq, idlq, mdlq, bmq, rfl, rfl, rfl, rfl, h1, h2, h3, h4, h5⟩
    · rintro ⟨c, hc, ma', idl', mdl', bm', hma, hidl, hmdl, hbm, h1, h2, h3, h4, h5⟩
      cases hc
      cases hma; cases hidl; cases hmdl; cases hbm
      exact ⟨h1, h2, h3, h4, h5⟩

theorem validateConfig_iff_witness : validateConfig portalConfigValue = true :=
  (validateConfig_iff portalConfigValue).mpr
    ⟨⟨.num 5, .num 200, .num 2000, .num 2, "exponential"⟩, rfl,
     5, 200, 2000, 2, rfl, rfl, rfl, rfl,
     by norm_num, by norm_num, by norm_num, by norm_num, by norm_num⟩

/-- C1.  Probe invocation count: under a valid config whose `maxAttempts` is
the natural number `m`, a probe that returns a falsy value on every call is
invoked exactly `m` times, and a probe that first returns a truthy value on
its `k`-th call (`k ≤ m`) is invoked exactly `k` times, the executor
returning that truthy value. -/
theorem retry_probe_invocation_count (c : RawConfig) (m : ℕ) (fn : ℕ → Outcome)
    (hvalid : validateConfig (.obj c) = true)
    (hm : c.maxAttempts = .num (m : ℚ)) :
    ((∀ i, i < m → ∃ w, fn i = .ret w ∧ truthy w = false) →
      (retryWithBackoff fn (.obj c)).calls = m) ∧
    (∀ k v, 1 ≤ k → k ≤ m → fn (k - 1) = .ret v → truthy v = true →
      (∀ i, i < k - 1 → ∃ w, fn i = .ret w ∧ truthy w = false) →
      (retryWithBackoff fn (.obj c)).calls = k ∧
      (retryWithBackoff fn (.obj c)).result = v) := by
  have hrun := retryWithBackoff_valid fn c hvalid
  have htot := numAttempts_of_natCast c m hm
  constructor
  · intro hfalsy
    rw [hrun, htot]
    apply retryGo_calls_of_no_success
    intro i hi
    obtain ⟨w, hw, hwf⟩ := hfalsy i (by omega)
    rw [Nat.zero_add, hw]
    exact hwf
  · intro k v hk1 hkm hfnk htr hprev
    have hfirst := retryGo_of_first_success fn (toRetryConfig c)
      (numAttempts (toRetryConfig c)) (numAttempts (toRetryConfig c)) 0 .null
      (k - 1) v (by omega) (by rw [Nat.zero_add]; exact hfnk) htr ?_
    · rw [hrun, htot]
      rw [htot] at hfirst
      refine ⟨?_, hfirst.1⟩
      rw [hfirst.2]; omega
    · intro i hi
      obtain ⟨w, hw, hwf⟩ := hprev i hi
      rw [Nat.zero_add, hw]
      exact hwf

theorem retry_probe_invocation_count_witness :
    (retryWithBackoff (fun _ => .ret .null) portalConfigValue).calls = 5 ∧
    ((retryWithBackoff (fun i => if i < 2 then .ret .null else .ret (.str "x"))
        portalConfigValue).calls = 3 ∧
     (retryWithBackoff (fun i => if i < 2 then .ret .null else .ret (.str "x"))
        portalConfigValue).result = .str "x") := by
  have h := retry_probe_invocation_count
    ⟨.num 5, .num 200, .num 2000, .num 2, "exponential"⟩ 5
    (fun _ => .ret .null) (by decide) (by norm_num)
  have h' := retry_probe_invocation_count
    ⟨.num 5, .num 200, .num 2000, .num 2, "exponential"⟩ 5
    (fun i => if i < 2 then .ret .null else .ret (.str "x")) (by decide) (by norm_num)
  refine ⟨h.1 (fun i _ => ⟨.null, rfl, rfl⟩), ?_⟩
  have := h'.2 3 (.str "x") (by omega) (by omega) (by norm_num) rfl ?_
  · exact ⟨this.1, this.2⟩
  · intro i hi
    refine ⟨.null, ?_, rfl⟩
    simp only [show i < 2 by omega, if_true]

/-- C4.  Exhaustion behaviour: for a valid config with `maxAttempts = m` and
a probe none of whose `m` outcomes is truthy (each is a falsy return or a
raised error), the executor — which never propagates a raise, every `thrown`
outcome being absorbed by the loop — returns the value of the last attempt
that returned (rather than threw), starting from `null`; in particular, if
the final attempt returned the falsy value `v`, the executor returns `v`. -/
theorem retry_exhaustion_returns_last_falsy (c : RawConfig) (m : ℕ)
    (fn : ℕ → Outcome)
    (hvalid : validateConfig (.obj c) = true)
    (hm : c.maxAttempts = .num (m : ℚ))
    (hfail : ∀ i, i < m → notSuccess (fn i)) :
    (retryWithBackoff fn (.obj c)).result = lastReturnedValue fn m 0 .null ∧
    (∀ v, fn (m - 1) = .ret v →
      (retryWithBackoff fn (.obj c)).result = v) := by
  have hrun := retryWithBackoff_valid fn c hvalid
  have htot := numAttempts_of_natCast c m hm
  have hm0 : 0 < m := by
    rcases (validateConfig_iff (.obj c)).mp hvalid with
      ⟨c', hc', ma, -, -, -, hma, -, -, -, hpos, -⟩
    cases hc'
    rw [hm] at hma
    cases hma
    by_contra h
    have : m = 0 := by omega
    subst this
    norm_num at hpos
  have hresult : (retryWithBackoff fn (.obj c)).result =
      lastReturnedValue fn m 0 .null := by
    rw [hrun, htot]
    apply retryGo_result_of_no_success
    intro i hi
    rw [Nat.zero_add]
    exact hfail i hi
  refine ⟨hresult, fun v hv => ?_⟩
  rw [hresult]
  exact lastReturnedValue_final fn m 0 .null v hm0 (by rw [Nat.zero_add]; exact hv)

theorem retry_exhaustion_returns_last_falsy_witness :
    (retryWithBackoff (fun i => if i < 4 then .thrown else .ret (.num 0))
      portalConfigValue).result = .num 0 := by
  have h := retry_exhaustion_returns_last_falsy
    ⟨.num 5, .num 200, .num 2000, .num 2, "exponential"⟩ 5
    (fun i => if i < 4 then .thrown else .ret (.num 0)) (by decide) (by norm_num)
    ?_
  · exact h.2 (.num 0) rfl
  · intro i hi
    by_cases hc : i < 4
    · simp [notSuccess, hc]
    · simp [notSuccess, hc, truthy]

/-- C6.  Invalid-config fallback: on any config rejected by `validateConfig`
the executor emits the invalid-config warning first and otherwise behaves
exactly as it does under the built-in portal preset (same returned value,
same probe invocations, same subsequent logs); the caller is not failed. -/
theorem retry_invalid_config_fallback (cv : ConfigValue) (fn : ℕ → Outcome)
    (hinvalid : validateConfig cv = false) :
    (retryWithBackoff fn cv).logs =
      .invalidConfigWarn :: (retryWithBackoff fn portalConfigValue).logs ∧
    (retryWithBackoff fn cv).result = (retryWithBackoff fn portalConfigValue).result ∧
    (retryWithBackoff fn cv).calls = (retryWithBackoff fn portalConfigValue).calls := by
  have heff : effectiveConfig cv = RETRY_CONFIG_portal := by
    cases cv with
    | nonObject => rfl
    | obj c => simp [effectiveConfig, hinvalid]
  have hvp : validateConfig portalConfigValue = true := by decide
  have heffp : effectiveConfig portalConfigValue = RETRY_CONFIG_portal := by
    simp only [portalConfigValue] at hvp
    simp only [portalConfigValue, effectiveConfig, hvp, if_true]
    rfl
  simp [retryWithBackoff, hinvalid, hvp, heff, heffp]

theorem retry_invalid_config_fallback_witness :
    (retryWithBackoff (fun _ => .ret .null) .nonObject).logs =
      .invalidConfigWarn ::
        (retryWithBackoff (fun _ => .ret .null) portalConfigValue).logs ∧
    (retryWithBackoff (fun _ => .ret .null) .nonObject).calls = 5 := by
  have h := retry_invalid_config_fallback .nonObject (fun _ => .ret .null) rfl
  refine ⟨h.1, ?_⟩
  rw [h.2.2]
  decide

/-! ### Lemmas about the element poller -/

theorem waitForElementGo_skip (query : ℕ → QueryOutcome) (timeout : ℕ) :
    ∀ fuel k n, k ≤ n → n - k < fuel →
      (∀ i, k ≤ i → i < n →
        query i = .notFound ∧ i * elementPollInterval < timeout) →
      waitForElementGo query timeout fuel k =
        waitForElementGo query timeout (fuel - (n - k)) n := by
  intro fuel
  induction fuel with
  | zero => intro k n _ h; omega
  | succ fuel ih =>
    intro k n hkn hlt h
    rcases Nat.eq_or_lt_of_le hkn with heq | hklt
    · subst heq
      simp
    · obtain ⟨hq, ht⟩ := h k le_rfl hklt
      have hstep : waitForElementGo query timeout (fuel + 1) k =
          waitForElementGo query timeout fuel (k + 1) := by
        simp only [waitForElementGo, hq]
        rw [if_neg (by omega)]
      rw [hstep, ih (k + 1) n (by omega) (by omega)
        (fun i hi₁ hi₂ => h i (by omega) hi₂)]
      congr 1
      omega

theorem waitForElementGo_null (query : ℕ → QueryOutcome) (timeout : ℕ)
    (hall : ∀ i, query i = .notFound) :
    ∀ fuel k, 0 < fuel → timeout ≤ (k + (fuel - 1)) * elementPollInterval →
      waitForElementGo query timeout fuel k = .nullResult := by
  intro fuel
  induction fuel with
  | zero => intro k h; omega
  | succ fuel ih =>
    intro k _ hbound
    simp only [waitForElementGo, hall k]
    by_cases hk : timeout ≤ k * elementPollInterval
    · rw [if_pos hk]
    · rw [if_neg hk]
      cases hf : fuel with
      | zero =>
        subst hf
        rw [Nat.add_sub_cancel, Nat.add_zero] at hbound
        exact absurd hbound hk
      | succ fuel' =>
        subst hf
        apply ih (k + 1) (Nat.succ_pos _)
        simp only [Nat.add_sub_cancel] at hbound ⊢
        have heq : k + 1 + fuel' = k + (fuel' + 1) := by omega
        rw [heq]
        exact hbound

/-- C5 counterexample.  A query that raises on its very first attempt (for
example an invalid selector makes `document.querySelector` throw) makes the
exception escape `waitForElement` — there is no `try`/`catch` in the source —
so polling does not continue and the result is neither the element nor the
`null` timeout value, contradicting the claim that the raise is treated as
"not found yet". -/
theorem waitForElement_raise_escapes :
    waitForElement (fun _ => .raises) 3000 = .exn ∧
      waitForElement (fun _ => .raises) 3000 ≠ .nullResult := by
  constructor <;> decide

/-- C5 (amended).  `waitForElement` returns the element delivered by the
first poll at which the query finds one, provided every earlier poll found
nothing (without raising) and happened before the timeout; it returns `null`
when the query never finds anything and never raises, once the elapsed time
reaches the timeout; and a poll at which the query raises makes the
exception escape (polling stops), again provided every earlier poll found
nothing before the timeout. -/
theorem waitForElement_poll_contract (query : ℕ → QueryOutcome) (timeout : ℕ) :
    (∀ n e, query n = .found e →
      (∀ i, i < n → query i = .notFound) →
      (∀ i, i < n → i * elementPollInterval < timeout) →
      waitForElement query timeout = .elem e) ∧
    ((∀ n, query n = .notFound) →
      waitForElement query timeout = .nullResult) ∧
    (∀ n, query n = .raises →
      (∀ i, i < n → query i = .notFound) →
      (∀ i, i < n → i * elementPollInterval < timeout) →
      waitForElement query timeout = .exn) := by
  have hreach : ∀ n, (∀ i, i < n → query i = .notFound) →
      (∀ i, i < n → i * elementPollInterval < timeout) →
      ∃ fuel, waitForElement query timeout =
        waitForElementGo query timeout (fuel + 1) n := by
    intro n hnf htime
    have hn : n < timeout / elementPollInterval + 2 := by
      simp only [elementPollInterval]
      rcases Nat.eq_zero_or_pos n with h0 | hpos
      · omega
      · have := htime (n - 1) (by omega)
        simp only [elementPollInterval] at this
        omega
    refine ⟨timeout / elementPollInterval + 2 - n - 1, ?_⟩
    rw [waitForElement,
      waitForElementGo_skip query timeout (timeout / elementPollInterval + 2) 0 n
        (Nat.zero_le n) (by simp only [elementPollInterval] at hn ⊢; omega)
        (fun i _ hi => ⟨hnf i hi, htime i hi⟩)]
    congr 1
    simp only [elementPollInterval] at hn ⊢
    omega
  refine ⟨?_, ?_, ?_⟩
  · intro n e hq hnf htime
    obtain ⟨fuel, hrw⟩ := hreach n hnf htime
    rw [hrw]
    simp [waitForElementGo, hq]
  · intro hall
    rw [waitForElement]
    apply waitForElementGo_null query timeout hall
    · simp only [elementPollInterval]
      omega
    · simp only [elementPollInterval]
      omega
  · intro n hq hnf htime
    obtain ⟨fuel, hrw⟩ := hreach n hnf htime
    rw [hrw]
    simp [waitForElementGo, hq]

theorem waitForElement_poll_contract_witness :
    waitForElement (fun n => if n = 2 then .found 7 else .notFound) 300 = .elem 7 ∧
    waitForElement (fun _ => .notFound) 300 = .nullResult := by
  constructor
  · apply (waitForElement_poll_contract
      (fun n => if n = 2 then .found 7 else .notFound) 300).1 2 7 rfl
    · intro i hi
      simp only [show i ≠ 2 by omega, if_false]
    · intro i hi
      simp only [elementPollInterval]
      omega
  · exact (waitForElement_poll_contract (fun _ => .notFound) 300).2.1 fun _ => rfl

/-! ### Lemmas about the storage service -/

/-- The record whose sanitised name ends up stored under `id`: the last
record of the batch that passes validation and carries that id. -/
def lastValidFor (accounts : List AccountRecord) (id : String) :
    Option AccountRecord :=
  accounts.foldl
    (fun acc a => if isValidRecord a && a.accountId == id then some a else acc)
    none

theorem objGet_objSet_self (k : String) (v : StoredAccount) :
    ∀ m : List (String × StoredAccount), objGet (objSet m k v) k = some v := by
  intro m
  induction m with
  | nil => simp [objSet, objGet]
  | cons p rest ih =>
    obtain ⟨k₁, v₁⟩ := p
    by_cases h : k₁ = k
    · subst h
      simp [objSet, objGet]
    · simp only [objGet] at ih
      simp [objSet, objGet, h, ih]

theorem objGet_objSet_ne (k k' : String) (v : StoredAccount) (h : k ≠ k') :
    ∀ m : List (String × StoredAccount), objGet (objSet m k v) k' = objGet m k' := by
  intro m
  induction m with
  | nil => simp [objSet, objGet, h]
  | cons p rest ih =>
    obtain ⟨k₁, v₁⟩ := p
    by_cases h₁ : k₁ = k
    · subst h₁
      simp [objSet, objGet, h]
    · by_cases h₂ : k₁ = k'
      · subst h₂
        simp [objSet, objGet, h₁]
      · simp only [objGet] at ih
        simp [objSet, objGet, h₁, h₂, ih]

theorem foldl_lastStep_some (id : String) :
    ∀ (accounts : List AccountRecord) (a : AccountRecord),
      accounts.foldl
          (fun acc' x =>
            if isValidRecord x && x.accountId == id then some x else acc')
          (some a) ≠ none := by
  intro accounts
  induction accounts with
  | nil => intro a h; cases h
  | cons x rest ih =>
    intro a
    rw [List.foldl_cons]
    by_cases hp : isValidRecord x && x.accountId == id
    · rw [if_pos hp]; exact ih x
    · rw [if_neg hp]; exact ih a

theorem foldl_storeStep_lookup (now : ℕ) (id : String) :
    ∀ (accounts : List AccountRecord) (m : List (String × StoredAccount))
      (acc : Option AccountRecord),
      (∀ r, acc = some r →
        objGet m id = some ⟨r.accountId, sanitizeAccountName r.accountName, now⟩) →
      objGet (accounts.foldl (storeStep now) m) id =
        match accounts.foldl
            (fun acc' a =>
              if isValidRecord a && a.accountId == id then some a else acc')
            acc with
        | some r => some ⟨r.accountId, sanitizeAccountName r.accountName, now⟩
        | none => objGet m id := by
  intro accounts
  induction accounts with
  | nil =>
    intro m acc hacc
    cases acc with
    | none => rfl
    | some r => exact (hacc r rfl).symm ▸ rfl
  | cons a rest ih =>
    intro m acc hacc
    rw [List.foldl_cons, List.foldl_cons]
    by_cases hp : isValidRecord a && a.accountId == id
    · have hval : isValidRecord a = true := by
        simpa using (Bool.and_eq_true_iff.mp hp).1
      have hid : a.accountId = id := by
        have := (Bool.and_eq_true_iff.mp hp).2
        simpa using this
      rw [if_pos hp]
      have hstep : objGet (storeStep now m a) id =
          some ⟨a.accountId, sanitizeAccountName a.accountName, now⟩ := by
        rw [storeStep, if_pos hval, ← hid]
        exact objGet_objSet_self a.accountId _ m
      have := ih (storeStep now m a) (some a) (by intro r hr; cases hr; exact hstep)
      rw [this]
      cases hres : rest.foldl
          (fun acc' a =>
            if isValidRecord a && a.accountId == id then some a else acc')
          (some a) with
      | none => exact absurd hres (foldl_lastStep_some id rest a)
      | some r => rfl
    · rw [if_neg hp]
      have hsame : objGet (storeStep now m a) id = objGet m id := by
        by_cases hval : isValidRecord a
        · have hid : a.accountId ≠ id := by
            intro he
            exact hp (by simp [hval, he])
          rw [storeStep, if_pos hval]
          exact objGet_objSet_ne a.accountId id _ hid m
        · rw [storeStep, if_neg hval]
      have := ih (storeStep now m a) acc
        (by intro r hr; rw [hsame]; exact hacc r hr)
      rw [this, hsame]

theorem buildValidAccounts_lookup (accounts : List AccountRecord) (now : ℕ)
    (id : String) :
    objGet (buildValidAccounts accounts now) id =
      match lastValidFor accounts id with
      | some r => some ⟨r.accountId, sanitizeAccountName r.accountName, now⟩
      | none => none := by
  have h := foldl_storeStep_lookup now id accounts [] none (by intro r hr; cases hr)
  rw [buildValidAccounts, h, lastValidFor]
  cases accounts.foldl
      (fun acc' a => if isValidRecord a && a.accountId == id then some a else acc')
      none with
  | none => rfl
  | some r => rfl

theorem foldl_lastStep_eq_some (id : String) :
    ∀ (accounts : List AccountRecord) (acc : Option AccountRecord) (r : AccountRecord),
      accounts.foldl
          (fun acc' a =>
            if isValidRecord a && a.accountId == id then some a else acc')
          acc = some r →
      acc = some r ∨ (r ∈ accounts ∧ isValidRecord r = true ∧ r.accountId = id) := by
  intro accounts
  induction accounts with
  | nil => intro acc r h; exact Or.inl h
  | cons a rest ih =>
    intro acc r h
    rw [List.foldl_cons] at h
    rcases ih _ r h with hacc | hmem
    · by_cases hp : isValidRecord a && a.accountId == id
      · rw [if_pos hp] at hacc
        cases hacc
        refine Or.inr ⟨List.mem_cons_self a rest, ?_, ?_⟩
        · simpa using (Bool.and_eq_true_iff.mp hp).1
        · have := (Bool.and_eq_true_iff.mp hp).2
          simpa using this
      · rw [if_neg hp] at hacc
        exact Or.inl hacc
    · exact Or.inr ⟨List.mem_cons_of_mem a hmem.1, hmem.2⟩

theorem lastValidFor_eq_some (accounts : List AccountRecord) (id : String)
    (r : AccountRecord) (h : lastValidFor accounts id = some r) :
    r ∈ accounts ∧ isValidRecord r = true ∧ r.accountId = id := by
  rcases foldl_lastStep_eq_some id accounts none r h with hc | hm
  · cases hc
  · exact hm

theorem foldl_lastStep_eq_none (id : String) :
    ∀ (accounts : List AccountRecord) (acc : Option AccountRecord),
      accounts.foldl
          (fun acc' a =>
            if isValidRecord a && a.accountId == id then some a else acc')
          acc = none ↔
      acc = none ∧ ∀ a ∈ accounts, ¬(isValidRecord a = true ∧ a.accountId = id) := by
  intro accounts
  induction accounts with
  | nil => intro acc; simp
  | cons a rest ih =>
    intro acc
    rw [List.foldl_cons, ih]
    by_cases hp : isValidRecord a && a.accountId == id
    · rw [if_pos hp]
      simp only [List.mem_cons]
      constructor
      · rintro ⟨h, -⟩; cases h
      · rintro ⟨-, hall⟩
        exact absurd
          ⟨by simpa using (Bool.and_eq_true_iff.mp hp).1,
           by simpa using (Bool.and_eq_true_iff.mp hp).2⟩
          (hall a (Or.inl rfl))
    · rw [if_neg hp]
      simp only [List.mem_cons]
      constructor
      · rintro ⟨h, hall⟩
        refine ⟨h, ?_⟩
        rintro x (rfl | hx)
        · rintro ⟨hv, hi⟩
          exact hp (by simp [hv, hi])
        · exact hall x hx
      · rintro ⟨h, hall⟩
        exact ⟨h, fun x hx => hall x (Or.inr hx)⟩

theorem lastValidFor_eq_none_iff (accounts : List AccountRecord) (id : String) :
    lastValidFor accounts id = none ↔
      ∀ a ∈ accounts, ¬(isValidRecord a = true ∧ a.accountId = id) := by
  rw [lastValidFor, foldl_lastStep_eq_none]
  simp

theorem isValidRecord_id (a : AccountRecord) (h : isValidRecord a = true) :
    isValidAccountId a.accountId = true :=
  (Bool.and_eq_true_iff.mp h).1

theorem getAccountName_invalid (id : String) (st : StorageState)
    (hid : isValidAccountId id = false) :
    getAccountName id st = ⟨false, none⟩ := by
  simp [getAccountName, hid]

theorem getAccountName_after_store_valid (accounts : List AccountRecord)
    (now : ℕ) (st : StorageState) (id : String)
    (hid : isValidAccountId id = true) :
    getAccountName id (storeAccounts accounts now st).2 =
      match lastValidFor accounts id with
      | some r => ⟨true, some (sanitizeAccountName r.accountName)⟩
      | none => ⟨true, none⟩ := by
  simp only [getAccountName, hid, Bool.not_true, Bool.false_eq_true, if_false,
    storeAccounts, Option.getD_some]
  rw [buildValidAccounts_lookup accounts now id]
  cases lastValidFor accounts id with
  | some r => rfl
  | none => rfl

/-- C7.  Full-replace storage semantics: after storing batch `A` and then
batch `B` (both of valid mappings), exactly the ids carried by `B` are
resolvable, and any id of `A` absent from `B` resolves to `accountName`
`null` — the second store mirrors, it does not merge. -/
theorem storeAccounts_full_replace (A B : List AccountRecord) (t₁ t₂ : ℕ)
    (st₀ : StorageState)
    (hA : ∀ r ∈ A, isValidRecord r = true)
    (hB : ∀ r ∈ B, isValidRecord r = true) :
    (∀ id,
      (getAccountName id
          (storeAccounts B t₂ (storeAccounts A t₁ st₀).2).2).accountName ≠ none ↔
        ∃ r ∈ B, r.accountId = id) ∧
    (∀ id, (∃ r ∈ A, r.accountId = id) → (∀ r ∈ B, r.accountId ≠ id) →
      getAccountName id (storeAccounts B t₂ (storeAccounts A t₁ st₀).2).2 =
        ⟨true, none⟩) := by
  constructor
  · intro id
    cases hid : isValidAccountId id with
    | false =>
      rw [getAccountName_invalid id _ hid]
      simp only [ne_eq, not_true, false_iff, not_exists]
      rintro r ⟨hr, rfl⟩
      exact absurd (isValidRecord_id r (hB r hr)) (by rw [hid]; exact Bool.false_ne_true)
    | true =>
      rw [getAccountName_after_store_valid B t₂ _ id hid]
      cases hlast : lastValidFor B id with
      | some r =>
        obtain ⟨hmem, _, hrid⟩ := lastValidFor_eq_some B id r hlast
        simp only [ne_eq, reduceCtorEq, not_false_eq_true, true_iff]
        exact ⟨r, hmem, hrid⟩
      | none =>
        simp only [ne_eq, not_true, false_iff, not_exists]
        rintro r ⟨hr, rfl⟩
        exact (lastValidFor_eq_none_iff B r.accountId).mp hlast r hr ⟨hB r hr, rfl⟩
  · intro id hidA hidB
    obtain ⟨r, hrA, hrid⟩ := hidA
    have hid : isValidAccountId id = true := by
      rw [← hrid]; exact isValidRecord_id r (hA r hrA)
    rw [getAccountName_after_store_valid B t₂ _ id hid]
    have hnone : lastValidFor B id = none :=
      (lastValidFor_eq_none_iff B id).mpr
        (fun a ha => fun ⟨_, haid⟩ => hidB a ha haid)
    rw [hnone]

theorem storeAccounts_full_replace_witness :
    getAccountName "111111111111"
      (storeAccounts [⟨"222222222222", "B"⟩] 2
        (storeAccounts [⟨"111111111111", "A"⟩] 1 emptyStorage).2).2 =
      ⟨true, none⟩ ∧
    (getAccountName "222222222222"
      (storeAccounts [⟨"222222222222", "B"⟩] 2
        (storeAccounts [⟨"111111111111", "A"⟩] 1 emptyStorage).2).2).accountName ≠
      none := by
  have h := storeAccounts_full_replace [⟨"111111111111", "A"⟩]
    [⟨"222222222222", "B"⟩] 1 2 emptyStorage
    (by intro r hr; simp at hr; subst hr; decide)
    (by intro r hr; simp at hr; subst hr; decide)
  constructor
  · refine h.2 "111111111111" ⟨⟨"111111111111", "A"⟩, by simp, rfl⟩ ?_
    intro r hr
    simp at hr
    subst hr
    decide
  · exact (h.1 "222222222222").mpr ⟨⟨"222222222222", "B"⟩, by simp, rfl⟩

/-- C8.  Storage round-trip with sanitisation: storing a batch of valid
mappings and reading back the id of a record (the batch's last record
carrying that id) returns success and exactly the trimmed, 256-capped name
as `sanitizeAccountName` stores it. -/
theorem storage_roundtrip_sanitized (M : List AccountRecord) (now : ℕ)
    (st : StorageState) (r : AccountRecord)
    (_hM : ∀ x ∈ M, isValidRecord x = true)
    (hr : lastValidFor M r.accountId = some r) :
    getAccountName r.accountId (storeAccounts M now st).2 =
      ⟨true, some (sanitizeAccountName r.accountName)⟩ := by
  obtain ⟨hmem, hval, _⟩ := lastValidFor_eq_some M r.accountId r hr
  rw [getAccountName_after_store_valid M now st r.accountId (isValidRecord_id r hval),
    hr]

theorem storage_roundtrip_sanitized_witness :
    getAccountName "123456789012"
      (storeAccounts [⟨"123456789012", "  Prod  "⟩] 5 emptyStorage).2 =
      ⟨true, some "Prod"⟩ := by
  have h := storage_roundtrip_sanitized [⟨"123456789012", "  Prod  "⟩] 5
    emptyStorage ⟨"123456789012", "  Prod  "⟩
    (by intro x hx; simp at hx; subst hx; decide) (by decide)
  exact h.trans (by decide)

/-- C9.  Malformed records are dropped, valid ones kept: `storeAccounts`
always reports success; every id whose last valid record in the batch is `r`
resolves to `r`'s sanitised name; and an id for which the batch holds no
valid record (every record with that id fails validation) resolves to
absent. -/
theorem storeAccounts_drops_invalid_keeps_valid (L : List AccountRecord)
    (now : ℕ) (st : StorageState) :
    (storeAccounts L now st).1.success = true ∧
    (∀ r, lastValidFor L r.accountId = some r →
      getAccountName r.accountId (storeAccounts L now st).2 =
        ⟨true, some (sanitizeAccountName r.accountName)⟩) ∧
    (∀ id, (∀ r ∈ L, r.accountId = id → isValidRecord r = false) →
      (getAccountName id (storeAccounts L now st).2).accountName = none) := by
  refine ⟨rfl, ?_, ?_⟩
  · intro r hr
    obtain ⟨_, hval, _⟩ := lastValidFor_eq_some L r.accountId r hr
    rw [getAccountName_after_store_valid L now st r.accountId
      (isValidRecord_id r hval), hr]
  · intro id hnone
    cases hid : isValidAccountId id with
    | false => rw [getAccountName_invalid id _ hid]
    | true =>
      rw [getAccountName_after_store_valid L now st id hid]
      have hlast : lastValidFor L id = none :=
        (lastValidFor_eq_none_iff L id).mpr
          (fun a ha => fun ⟨hv, haid⟩ => by
            rw [hnone a ha haid] at hv
            exact Bool.false_ne_true hv)
      rw [hlast]

theorem storeAccounts_drops_invalid_keeps_valid_witness :
    (storeAccounts [⟨"bad", "X"⟩, ⟨"123456789012", "Good"⟩] 7 emptyStorage).1.success
      = true ∧
    getAccountName "123456789012"
      (storeAccounts [⟨"bad", "X"⟩, ⟨"123456789012", "Good"⟩] 7 emptyStorage).2 =
      ⟨true, some "Good"⟩ ∧
    (getAccountName "bad"
      (storeAccounts [⟨"bad", "X"⟩, ⟨"123456789012", "Good"⟩] 7 emptyStorage).2).accountName
      = none := by
  have h := storeAccounts_drops_invalid_keeps_valid
    [⟨"bad", "X"⟩, ⟨"123456789012", "Good"⟩] 7 emptyStorage
  refine ⟨h.1, ?_, ?_⟩
  · exact (h.2.1 ⟨"123456789012", "Good"⟩ (by decide)).trans (by decide)
  · apply h.2.2
    intro r hr hid
    simp at hr
    rcases hr with rfl | rfl
    · decide
    · exact absurd hid (by decide)

/-- Data of a string built from a character list. -/
theorem data_asString (l : List Char) : (l.asString).data = l := rfl

/-- C10.  Display truncation invariant: the tooltip text is always the full
name followed by the id in parentheses; the display text is the name itself
when the name has at most 30 characters and otherwise its first 27
characters followed by `"..."`; in both cases the display text never exceeds
30 characters. -/
theorem createDisplayElement_truncation (accountName accountId : String) :
    (createDisplayElement accountName accountId).tooltipText =
      accountName ++ " (" ++ accountId ++ ")" ∧
    (accountName.data.length ≤ 30 →
      (createDisplayElement accountName accountId).displayText = accountName) ∧
    (30 < accountName.data.length →
      (createDisplayElement accountName accountId).displayText =
        (accountName.data.take 27).asString ++ "...") ∧
    (createDisplayElement accountName accountId).displayText.data.length ≤ 30 := by
  have hshort : ∀ h : accountName.data.length ≤ 30,
      (createDisplayElement accountName accountId).displayText = accountName := by
    intro h
    have h' : accountName.length ≤ 30 := h
    simp [createDisplayElement, truncateText, CONFIG_maxNameLength, h']
  have hlong : ∀ h : 30 < accountName.data.length,
      (createDisplayElement accountName accountId).displayText =
        (accountName.data.take 27).asString ++ "..." := by
    intro h
    have h' : ¬(accountName.length ≤ 30) := Nat.not_le.mpr h
    have hne : ¬(accountName = "") := by
      intro he
      subst he
      simp at h
    simp [createDisplayElement, truncateText, CONFIG_maxNameLength, hne, h',
      jsSubstring]
  refine ⟨rfl, hshort, hlong, ?_⟩
  by_cases h : accountName.data.length ≤ 30
  · rw [hshort h]
    exact h
  · rw [hlong (Nat.not_le.mp h), String.data_append, List.length_append,
      data_asString, List.length_take]
    have h3 : ("..." : String).data.length = 3 := rfl
    rw [h3]
    omega

theorem createDisplayElement_truncation_witness :
    (createDisplayElement "a-very-long-account-name-exceeding-thirty"
      "123456789012").displayText = "a-very-long-account-name-ex..." ∧
    (createDisplayElement "short" "123456789012").tooltipText =
      "short (123456789012)" := by
  constructor
  · rw [(createDisplayElement_truncation "a-very-long-account-name-exceeding-thirty"
      "123456789012").2.2.1 (by decide)]
    decide
  · exact (createDisplayElement_truncation "short" "123456789012").1.trans (by decide)

end AwsAccountName
